import Mathlib

/-!
Shallow embedding of the PII redaction engine (detection merging, redaction
strategies, text rewriting, payload processing) together with proofs of the
specification's testable properties.

Python strings are modelled as `List Char` (one entry per code point), Python
floats (confidence scores) as rationals, and Python's stable `sorted` as
Mathlib's stable `List.insertionSort`.  Fallible calls (the external detector)
are modelled with `Except`.
-/

/-- Python `str` modelled as a list of characters. -/
abbrev Str := List Char

/-- Python `str.strip()`: remove leading and trailing whitespace. -/
def pyStrip (s : Str) : Str :=
  (((s.dropWhile Char.isWhitespace).reverse).dropWhile Char.isWhitespace).reverse

/-- `src/detection/pii_entity.py` — `PIIEntity` dataclass. -/
structure PIIEntity where
  text : Str
  entity_type : Str
  start_pos : Nat
  end_pos : Nat
  confidence : ℚ
  source : Str
deriving DecidableEq

/-- `src/detection/detection_utils.py` — `entities_overlap`:
half-open interval intersection test. -/
def entities_overlap (entity1 entity2 : PIIEntity) : Bool :=
  decide (entity1.start_pos < entity2.end_pos ∧ entity1.end_pos > entity2.start_pos)

/-- Ascending comparison on start positions, the key used by
`sorted(entities, key=lambda x: x.start_pos)`. -/
def startLe (a b : PIIEntity) : Prop := a.start_pos ≤ b.start_pos

instance : DecidableRel startLe := fun a b => Nat.decLe a.start_pos b.start_pos

instance : IsTotal PIIEntity startLe := ⟨fun a b => Nat.le_total a.start_pos b.start_pos⟩

instance : IsTrans PIIEntity startLe := ⟨fun _ _ _ h h' => Nat.le_trans h h'⟩

/-- Descending comparison on start positions, the key used by
`sorted(entities, key=lambda x: x.start_pos, reverse=True)`. -/
def startGe (a b : PIIEntity) : Prop := b.start_pos ≤ a.start_pos

instance : DecidableRel startGe := fun a b => Nat.decLe b.start_pos a.start_pos

instance : IsTotal PIIEntity startGe := ⟨fun a b => Nat.le_total b.start_pos a.start_pos⟩

instance : IsTrans PIIEntity startGe := ⟨fun _ _ _ h h' => Nat.le_trans h' h⟩

/-- Python's `sorted(entities, key=lambda x: x.start_pos)`: a stable ascending
sort by start position (insertion sort is stable, like timsort). -/
def sortByStart (l : List PIIEntity) : List PIIEntity :=
  List.insertionSort startLe l

/-- The body of the `for entity in sorted_entities` loop of
`deduplicate_entities`: scan the accepted list for the first overlap; on
overlap replace the accepted entity when the candidate's confidence is
strictly greater, otherwise drop the candidate; with no overlap append. -/
def scanInsert : List PIIEntity → PIIEntity → List PIIEntity
  | [], e => [e]
  | x :: xs, e =>
    if entities_overlap e x then
      if x.confidence < e.confidence then e :: xs else x :: xs
    else
      x :: scanInsert xs e

/-- `src/detection/detection_utils.py` — `deduplicate_entities`. -/
def deduplicate_entities (entities : List PIIEntity) : List PIIEntity :=
  if entities = [] then []
  else sortByStart ((sortByStart entities).foldl scanInsert [])

/-- `src/detection/detection_utils.py` — `merge_entity_lists`. -/
def merge_entity_lists (entity_lists : List (List PIIEntity)) : List PIIEntity :=
  deduplicate_entities entity_lists.flatten

/- ### Reconciler lemmas -/

theorem entities_overlap_comm (a b : PIIEntity) :
    entities_overlap a b = entities_overlap b a := by
  simp only [entities_overlap, decide_eq_decide]
  omega

theorem mem_scanInsert {z e : PIIEntity} :
    ∀ {acc : List PIIEntity}, z ∈ scanInsert acc e → z ∈ acc ∨ z = e := by
  intro acc
  induction acc with
  | nil => simp [scanInsert]
  | cons x xs ih =>
    simp only [scanInsert]
    split
    · split
      · intro h
        rcases List.mem_cons.mp h with rfl | hz
        · exact Or.inr rfl
        · exact Or.inl (List.mem_cons_of_mem _ hz)
      · intro h
        exact Or.inl h
    · intro h
      rcases List.mem_cons.mp h with rfl | hz
      · exact Or.inl (List.mem_cons_self _ _)
      · rcases ih hz with h' | h'
        · exact Or.inl (List.mem_cons_of_mem _ h')
        · exact Or.inr h'

/-- A candidate whose start is at least every accepted start can overlap at
most one member of a pairwise-disjoint accepted list: overlapping two
disjoint accepted entities is impossible. -/
theorem overlap_unique {e x y : PIIEntity}
    (hx : x.start_pos ≤ e.start_pos) (hy : y.start_pos ≤ e.start_pos)
    (hxy : entities_overlap x y = false)
    (hex : entities_overlap e x = true) (hey : entities_overlap e y = true) :
    False := by
  simp only [entities_overlap, decide_eq_true_eq, decide_eq_false_iff_not] at hxy hex hey
  omega

theorem scanInsert_pairwise {e : PIIEntity} :
    ∀ {acc : List PIIEntity},
      acc.Pairwise (fun a b => entities_overlap a b = false) →
      (∀ x ∈ acc, x.start_pos ≤ e.start_pos) →
      (scanInsert acc e).Pairwise (fun a b => entities_overlap a b = false) := by
  intro acc
  induction acc with
  | nil => intro _ _; simp [scanInsert]
  | cons x xs ih =>
    intro hpw hle
    rcases List.pairwise_cons.mp hpw with ⟨hx, hxs⟩
    simp only [scanInsert]
    split
    · rename_i hov
      split
      · refine List.pairwise_cons.mpr ⟨?_, hxs⟩
        intro y hy
        by_contra hne
        have hey : entities_overlap e y = true := by
          cases h : entities_overlap e y
          · exact absurd h hne
          · rfl
        exact overlap_unique (hle x (List.mem_cons_self _ _))
          (hle y (List.mem_cons_of_mem _ hy)) (hx y hy) hov hey
      · exact hpw
    · rename_i hov
      refine List.pairwise_cons.mpr ⟨?_, ih hxs (fun z hz => hle z (List.mem_cons_of_mem _ hz))⟩
      intro z hz
      rcases mem_scanInsert hz with h | rfl
      · exact hx z h
      · rw [entities_overlap_comm]
        simpa using hov

theorem foldl_scanInsert_inv :
    ∀ (cand acc : List PIIEntity),
      cand.Pairwise startLe →
      acc.Pairwise (fun a b => entities_overlap a b = false) →
      (∀ x ∈ acc, ∀ c ∈ cand, x.start_pos ≤ c.start_pos) →
      (cand.foldl scanInsert acc).Pairwise (fun a b => entities_overlap a b = false) ∧
        ∀ z ∈ cand.foldl scanInsert acc, z ∈ acc ∨ z ∈ cand := by
  intro cand
  induction cand with
  | nil => intro acc _ hpw _; exact ⟨hpw, fun z hz => Or.inl hz⟩
  | cons e cs ih =>
    intro acc hsorted hpw hcross
    rcases List.pairwise_cons.mp hsorted with ⟨hhead, htail⟩
    have hle : ∀ x ∈ acc, x.start_pos ≤ e.start_pos :=
      fun x hx => hcross x hx e (List.mem_cons_self _ _)
    have hpw' := scanInsert_pairwise hpw hle
    have hcross' : ∀ x ∈ scanInsert acc e, ∀ c ∈ cs, x.start_pos ≤ c.start_pos := by
      intro x hx c hc
      rcases mem_scanInsert hx with h | rfl
      · exact hcross x h c (List.mem_cons_of_mem _ hc)
      · exact hhead c hc
    rcases ih (scanInsert acc e) htail hpw' hcross' with ⟨hres, hmem⟩
    refine ⟨by simpa using hres, ?_⟩
    intro z hz
    rcases hmem z (by simpa using hz) with h | h
    · rcases mem_scanInsert h with h' | rfl
      · exact Or.inl h'
      · exact Or.inr (List.mem_cons_self _ _)
    · exact Or.inr (List.mem_cons_of_mem _ h)

theorem pairwise_notOverlap_symm :
    ∀ {a b : PIIEntity}, entities_overlap a b = false → entities_overlap b a = false := by
  intro a b h
  rw [entities_overlap_comm]
  exact h

theorem deduplicate_entities_spec (l : List PIIEntity) :
    (deduplicate_entities l).Pairwise startLe ∧
      (deduplicate_entities l).Pairwise (fun a b => entities_overlap a b = false) ∧
      ∀ e ∈ deduplicate_entities l, e ∈ l := by
  unfold deduplicate_entities
  split
  · simp
  · set s := sortByStart l with hs
    have hsorted : s.Pairwise startLe := List.sorted_insertionSort startLe l
    rcases foldl_scanInsert_inv s [] hsorted List.Pairwise.nil (by simp) with ⟨hpw, hmem⟩
    set acc := s.foldl scanInsert [] with hacc
    have hperm : List.Perm (sortByStart acc) acc := List.perm_insertionSort startLe acc
    refine ⟨List.sorted_insertionSort startLe acc, ?_, ?_⟩
    · exact (hperm.pairwise_iff (fun h => pairwise_notOverlap_symm h)).mpr hpw
    · intro e he
      have he' : e ∈ acc := hperm.mem_iff.mp he
      rcases hmem e he' with h | h
      · simp at h
      · exact ((List.perm_insertionSort startLe l).mem_iff).mp h

/-- C1: entity reconciliation (`merge_entity_lists` / `deduplicate_entities`)
always returns a list sorted ascending by start position, pairwise
non-overlapping under the half-open overlap test, and consisting only of
input entities (each with all its fields unchanged). -/
theorem reconcile_sorted_disjoint_from_input
    (l : List PIIEntity) (lists : List (List PIIEntity)) :
    ((deduplicate_entities l).Pairwise startLe ∧
      (deduplicate_entities l).Pairwise (fun a b => entities_overlap a b = false) ∧
      ∀ e ∈ deduplicate_entities l, e ∈ l) ∧
    ((merge_entity_lists lists).Pairwise startLe ∧
      (merge_entity_lists lists).Pairwise (fun a b => entities_overlap a b = false) ∧
      ∀ e ∈ merge_entity_lists lists, ∃ ll ∈ lists, e ∈ ll) := by
  refine ⟨deduplicate_entities_spec l, ?_⟩
  rcases deduplicate_entities_spec lists.flatten with ⟨h1, h2, h3⟩
  exact ⟨h1, h2, fun e he => List.mem_flatten.mp (h3 e he)⟩

/- ### Reconciling an already-disjoint list (C9) -/

theorem scanInsert_no_overlap {e : PIIEntity} :
    ∀ {acc : List PIIEntity}, (∀ x ∈ acc, entities_overlap e x = false) →
      scanInsert acc e = acc ++ [e] := by
  intro acc
  induction acc with
  | nil => intro _; rfl
  | cons x xs ih =>
    intro h
    have hx : entities_overlap e x = false := h x (List.mem_cons_self _ _)
    simp only [scanInsert, hx]
    simp only [Bool.false_eq_true, if_false, List.cons_append, List.cons.injEq, true_and]
    exact ih (fun z hz => h z (List.mem_cons_of_mem _ hz))

theorem foldl_scanInsert_disjoint :
    ∀ (s acc : List PIIEntity),
      (acc ++ s).Pairwise (fun a b => entities_overlap a b = false) →
      s.foldl scanInsert acc = acc ++ s := by
  intro s
  induction s with
  | nil => intro acc _; simp
  | cons e cs ih =>
    intro acc hpw
    have hacc : ∀ x ∈ acc, entities_overlap e x = false := by
      intro x hx
      have := (List.pairwise_append.mp hpw).2.2 x hx e (List.mem_cons_self _ _)
      exact pairwise_notOverlap_symm this
    have hstep : scanInsert acc e = acc ++ [e] := scanInsert_no_overlap hacc
    have hpw' : ((acc ++ [e]) ++ cs).Pairwise (fun a b => entities_overlap a b = false) := by
      simpa [List.append_assoc] using hpw
    calc (e :: cs).foldl scanInsert acc
        = cs.foldl scanInsert (scanInsert acc e) := rfl
      _ = cs.foldl scanInsert (acc ++ [e]) := by rw [hstep]
      _ = (acc ++ [e]) ++ cs := ih (acc ++ [e]) hpw'
      _ = acc ++ e :: cs := by simp

/-- C9: reconciling an already pairwise non-overlapping list returns exactly
the input entities (a permutation with every field untouched), merely
re-sorted ascending by start position. -/
theorem deduplicate_disjoint_resorts (l : List PIIEntity)
    (h : l.Pairwise (fun a b => entities_overlap a b = false)) :
    deduplicate_entities l = sortByStart l ∧
      List.Perm (deduplicate_entities l) l ∧
      (deduplicate_entities l).Pairwise startLe := by
  have hmain : deduplicate_entities l = sortByStart l := by
    unfold deduplicate_entities
    split
    · rename_i hnil
      simp [hnil, sortByStart]
    · have hperm : List.Perm (sortByStart l) l := List.perm_insertionSort startLe l
      have hpw : (sortByStart l).Pairwise (fun a b => entities_overlap a b = false) :=
        (hperm.pairwise_iff (fun hab => pairwise_notOverlap_symm hab)).mpr h
      have hfold : (sortByStart l).foldl scanInsert [] = sortByStart l := by
        have := foldl_scanInsert_disjoint (sortByStart l) [] (by simpa using hpw)
        simpa using this
      rw [hfold]
      exact (List.sorted_insertionSort startLe l).insertionSort_eq
  refine ⟨hmain, ?_, ?_⟩
  · rw [hmain]
    exact List.perm_insertionSort startLe l
  · rw [hmain]
    exact List.sorted_insertionSort startLe l

/-- C9 witness at a concrete disjoint list. -/
theorem deduplicate_disjoint_resorts_witness :
    deduplicate_entities
        [⟨['b'], ['T'], 5, 8, 1/2, ['R']⟩, ⟨['a'], ['T'], 0, 3, 9/10, ['R']⟩] =
      sortByStart
        [⟨['b'], ['T'], 5, 8, 1/2, ['R']⟩, ⟨['a'], ['T'], 0, 3, 9/10, ['R']⟩] :=
  (deduplicate_disjoint_resorts _ (by decide)).1

/- ### Redaction strategies (`src/redaction/redaction_strategies.py`) -/

/-- `MaskStrategy.redact`: length-tiered masking of the stripped snippet. -/
def MaskStrategy.redact (original_text _entity_type : Str) : Str :=
  let text := pyStrip original_text
  if text.length ≤ 2 then
    List.replicate text.length '*'
  else if text.length ≤ 4 then
    text.take 1 ++ List.replicate (text.length - 2) '*' ++ text.drop (text.length - 1)
  else
    text.take 2 ++ List.replicate (text.length - 3) '*' ++ text.drop (text.length - 1)

/-- `PartialStrategy._default_mask`: all asterisks up to length 2, otherwise
first and last character visible. -/
def PartialStrategy.default_mask (text : Str) : Str :=
  if text.length ≤ 2 then
    List.replicate text.length '*'
  else
    text.take 1 ++ List.replicate (text.length - 2) '*' ++ text.drop (text.length - 1)

/-- `PartialStrategy.redact`: type-aware partial masking; EMAIL keeps the
domain, PHONE and CREDIT_CARD keep the last four digits, anything else uses
`_default_mask`. -/
def PartialStrategy.redact (original_text entity_type : Str) : Str :=
  let text := pyStrip original_text
  if entity_type = "EMAIL".toList then
    if text.contains '@' then
      let username := text.takeWhile (fun c => c != '@')
      let domain := (text.dropWhile (fun c => c != '@')).drop 1
      let masked_username :=
        if username ≠ [] then
          username.take 1 ++ List.replicate (username.length - 1) '*'
        else ['*']
      masked_username ++ ['@'] ++ domain
    else PartialStrategy.default_mask text
  else if entity_type = "PHONE".toList then
    let digits_only := text.filter Char.isDigit
    if 4 ≤ digits_only.length then
      "***-***-".toList ++ digits_only.drop (digits_only.length - 4)
    else PartialStrategy.default_mask text
  else if entity_type = "CREDIT_CARD".toList then
    let digits_only := text.filter Char.isDigit
    if 4 ≤ digits_only.length then
      "****-****-****-".toList ++ digits_only.drop (digits_only.length - 4)
    else PartialStrategy.default_mask text
  else PartialStrategy.default_mask text

/-- `HashStrategy`: the instance-owned cache, a mapping keyed by the exact
original snippet. -/
structure HashStrategy where
  hash_cache : List (Str × Str)
deriving DecidableEq

/-- `HashStrategy.redact`, parameterised by the hex digest function
(`hashlib.md5(...).hexdigest()`, external to this repository): return the
cached replacement when present, otherwise build
`[` + entity_type + `_` + first 8 digest characters + `]` and cache it. -/
def HashStrategy.redact (md5hex : Str → Str) (s : HashStrategy)
    (original_text entity_type : Str) : Str × HashStrategy :=
  match s.hash_cache.lookup original_text with
  | some v => (v, s)
  | none =>
    let hash_str := (md5hex original_text).take 8
    let redacted := "[".toList ++ entity_type ++ "_".toList ++ hash_str ++ "]".toList
    (redacted, ⟨s.hash_cache ++ [(original_text, redacted)]⟩)

/- ### Redaction results and the text redactor -/

/-- One entry of `redaction_metadata` built in `TextRedactor.redact_text`. -/
structure RedactionEntry where
  original_text : Str
  entity_type : Str
  start_pos : Nat
  end_pos : Nat
  replacement : Str
  confidence : ℚ
  source : Str
deriving DecidableEq

/-- `src/redaction/redaction_result.py` — `RedactionResult` dataclass. -/
structure RedactionResult where
  original_text : Str
  redacted_text : Str
  entities_redacted : List RedactionEntry
  redaction_count : Nat
  strategy_used : String
  redacted_at : String
deriving DecidableEq

/-- `RedactionResult.create_empty` (the timestamp is passed in, standing for
`datetime.utcnow().isoformat()`). -/
def RedactionResult.create_empty (text : Str) (strategy : String) (now : String) :
    RedactionResult :=
  ⟨text, text, [], 0, strategy, now⟩

/-- One iteration of the redaction loop in `TextRedactor.redact_text`:
splice `strategy.redact(entity.text, entity.entity_type)` into the working
text over `[start_pos, end_pos)` and append the audit entry. -/
def applyEntity (strategy : Str → Str → Str)
    (acc : Str × List RedactionEntry) (e : PIIEntity) : Str × List RedactionEntry :=
  let replacement := strategy e.text e.entity_type
  (acc.1.take e.start_pos ++ replacement ++ acc.1.drop e.end_pos,
   acc.2 ++ [⟨e.text, e.entity_type, e.start_pos, e.end_pos, replacement,
              e.confidence, e.source⟩])

/-- `src/redaction/text_redactor.py` — `TextRedactor.redact_text`,
parameterised by the strategy's `redact` function, the configured strategy
name and the current timestamp. -/
def TextRedactor.redact_text (strategy : Str → Str → Str)
    (strategy_name now : String) (text : Str) (entities : List PIIEntity) :
    RedactionResult :=
  if entities = [] then RedactionResult.create_empty text strategy_name now
  else
    let sorted_entities := List.insertionSort startGe entities
    let p := sorted_entities.foldl (applyEntity strategy) (text, [])
    ⟨text, p.1, p.2, p.2.length, strategy_name, now⟩

/- ### Length accounting for the text redactor (C2) -/

/-- Total width of the redacted spans. -/
def spanSum (l : List PIIEntity) : ℤ :=
  (l.map (fun e => (e.end_pos : ℤ) - e.start_pos)).sum

/-- Total width of the replacements produced by the strategy. -/
def replSum (strategy : Str → Str → Str) (l : List PIIEntity) : ℤ :=
  (l.map (fun e => ((strategy e.text e.entity_type).length : ℤ))).sum

theorem foldl_applyEntity_length (strategy : Str → Str → Str) :
    ∀ (l : List PIIEntity) (t : Str) (rs : List RedactionEntry),
      l.Pairwise (fun a b => entities_overlap a b = false) →
      l.Pairwise startGe →
      (∀ e ∈ l, e.start_pos < e.end_pos ∧ e.end_pos ≤ t.length) →
      (((l.foldl (applyEntity strategy) (t, rs)).1.length : ℤ))
        = (t.length : ℤ) - spanSum l + replSum strategy l := by
  intro l
  induction l with
  | nil =>
    intro t rs _ _ _
    simp [spanSum, replSum]
  | cons e l' ih =>
    intro t rs hpw hsorted hb
    rcases List.pairwise_cons.mp hpw with ⟨hov, hpw'⟩
    rcases List.pairwise_cons.mp hsorted with ⟨hge, hsorted'⟩
    obtain ⟨hse, heb⟩ := hb e (List.mem_cons_self _ _)
    have hlen : (applyEntity strategy (t, rs) e).1.length
        = e.start_pos + (strategy e.text e.entity_type).length
            + (t.length - e.end_pos) := by
      simp only [applyEntity, List.length_append, List.length_take, List.length_drop]
      omega
    have hb' : ∀ x ∈ l', x.start_pos < x.end_pos ∧
        x.end_pos ≤ (applyEntity strategy (t, rs) e).1.length := by
      intro x hx
      obtain ⟨h1, _⟩ := hb x (List.mem_cons_of_mem _ hx)
      refine ⟨h1, ?_⟩
      have h3 := hov x hx
      have h4 : x.start_pos ≤ e.start_pos := hge x hx
      simp only [entities_overlap, decide_eq_false_iff_not, not_and, not_lt] at h3
      rw [hlen]
      omega
    have hihm := ih (applyEntity strategy (t, rs) e).1
      (applyEntity strategy (t, rs) e).2 hpw' hsorted' hb'
    have hspan : spanSum (e :: l') = ((e.end_pos : ℤ) - e.start_pos) + spanSum l' := by
      simp [spanSum]
    have hrepl : replSum strategy (e :: l')
        = ((strategy e.text e.entity_type).length : ℤ) + replSum strategy l' := by
      simp [replSum]
    have hstep : (e :: l').foldl (applyEntity strategy) (t, rs)
        = l'.foldl (applyEntity strategy) (applyEntity strategy (t, rs) e) := rfl
    rw [hstep, hspan, hrepl]
    rw [Prod.mk.eta] at hihm
    rw [hihm]
    have hlenZ : ((applyEntity strategy (t, rs) e).1.length : ℤ)
        = (e.start_pos : ℤ) + ((strategy e.text e.entity_type).length : ℤ)
            + ((t.length : ℤ) - (e.end_pos : ℤ)) := by
      rw [hlen]
      omega
    rw [hlenZ]
    ring

/-- C2: for pairwise non-overlapping entities with valid spans, the redactor
(which applies replacements in descending start order) produces text whose
length equals the original length minus the total redacted span width plus
the total replacement width. -/
theorem redact_text_length (strategy : Str → Str → Str)
    (strategy_name now : String) (text : Str) (entities : List PIIEntity)
    (hdisj : entities.Pairwise (fun a b => entities_overlap a b = false))
    (hvalid : ∀ e ∈ entities, e.start_pos < e.end_pos ∧ e.end_pos ≤ text.length) :
    (((TextRedactor.redact_text strategy strategy_name now text entities).redacted_text.length : ℤ))
      = (text.length : ℤ) - spanSum entities + replSum strategy entities := by
  unfold TextRedactor.redact_text
  split
  · rename_i hnil
    subst hnil
    simp [RedactionResult.create_empty, spanSum, replSum]
  · have hperm : List.Perm (List.insertionSort startGe entities) entities :=
      List.perm_insertionSort startGe entities
    have hpw : (List.insertionSort startGe entities).Pairwise
        (fun a b => entities_overlap a b = false) :=
      (hperm.pairwise_iff (fun hab => pairwise_notOverlap_symm hab)).mpr hdisj
    have hsorted : (List.insertionSort startGe entities).Pairwise startGe :=
      List.sorted_insertionSort startGe entities
    have hb : ∀ e ∈ List.insertionSort startGe entities,
        e.start_pos < e.end_pos ∧ e.end_pos ≤ text.length :=
      fun e he => hvalid e (hperm.mem_iff.mp he)
    have hmain := foldl_applyEntity_length strategy
      (List.insertionSort startGe entities) text [] hpw hsorted hb
    have hspan : spanSum (List.insertionSort startGe entities) = spanSum entities :=
      List.Perm.sum_eq (hperm.map _)
    have hrepl : replSum strategy (List.insertionSort startGe entities)
        = replSum strategy entities :=
      List.Perm.sum_eq (hperm.map _)
    simpa [hspan, hrepl] using hmain

/-- C2 witness: a concrete text, two disjoint entities, a constant-width
strategy. -/
theorem redact_text_length_witness :
    (((TextRedactor.redact_text (fun _ _ => "[X]".toList) "placeholder" "t"
        "hello world".toList
        [⟨"hello".toList, "OTHER".toList, 0, 5, 1/2, "REGEX".toList⟩,
         ⟨"world".toList, "OTHER".toList, 6, 11, 1/2, "REGEX".toList⟩]).redacted_text.length : ℤ))
      = ((("hello world".toList.length : ℤ))
          - spanSum [⟨"hello".toList, "OTHER".toList, 0, 5, 1/2, "REGEX".toList⟩,
                     ⟨"world".toList, "OTHER".toList, 6, 11, 1/2, "REGEX".toList⟩]
          + replSum (fun _ _ => "[X]".toList)
              [⟨"hello".toList, "OTHER".toList, 0, 5, 1/2, "REGEX".toList⟩,
               ⟨"world".toList, "OTHER".toList, 6, 11, 1/2, "REGEX".toList⟩]) :=
  redact_text_length (fun _ _ => "[X]".toList) "placeholder" "t" _ _
    (by decide) (by decide)

/- ### Confidence tie-breaking on an overlapping pair (C3) -/

theorem dedup_pair_le (a b : PIIEntity) (h : a.start_pos ≤ b.start_pos)
    (hov : entities_overlap b a = true) :
    deduplicate_entities [a, b] = if a.confidence < b.confidence then [b] else [a] := by
  have hne : ([a, b] : List PIIEntity) ≠ [] := by simp
  unfold deduplicate_entities
  rw [if_neg hne]
  have hsort : sortByStart [a, b] = [a, b] := by
    simp [sortByStart, startLe, h]
  rw [hsort]
  have hfold : ([a, b] : List PIIEntity).foldl scanInsert []
      = if a.confidence < b.confidence then [b] else [a] := by
    simp only [List.foldl_cons, List.foldl_nil, scanInsert, hov, if_true]
  rw [hfold]
  split <;> simp [sortByStart]

theorem dedup_pair_gt (a b : PIIEntity) (h : ¬ a.start_pos ≤ b.start_pos)
    (hov : entities_overlap a b = true) :
    deduplicate_entities [a, b] = if b.confidence < a.confidence then [a] else [b] := by
  have hne : ([a, b] : List PIIEntity) ≠ [] := by simp
  unfold deduplicate_entities
  rw [if_neg hne]
  have hsort : sortByStart [a, b] = [b, a] := by
    simp [sortByStart, startLe, h]
  rw [hsort]
  have hfold : ([b, a] : List PIIEntity).foldl scanInsert []
      = if b.confidence < a.confidence then [a] else [b] := by
    simp only [List.foldl_cons, List.foldl_nil, scanInsert, hov, if_true]
  rw [hfold]
  split <;> simp [sortByStart]

/-- C3: on two overlapping entities the strictly higher confidence always
wins regardless of input order, and at equal confidence the entity that
comes first in start-sorted order is retained (the comparison in the loop is
strict). -/
theorem reconcile_confidence_tiebreak (e1 e2 : PIIEntity)
    (hov : entities_overlap e1 e2 = true) :
    (e1.confidence < e2.confidence →
      deduplicate_entities [e1, e2] = [e2] ∧ deduplicate_entities [e2, e1] = [e2]) ∧
    (e1.confidence = e2.confidence → e1.start_pos ≤ e2.start_pos →
      deduplicate_entities [e1, e2] = [e1] ∧
        (e1.start_pos < e2.start_pos → deduplicate_entities [e2, e1] = [e1])) := by
  have hov' : entities_overlap e2 e1 = true := by
    rw [entities_overlap_comm]; exact hov
  constructor
  · intro hconf
    constructor
    · rcases Nat.le_total e1.start_pos e2.start_pos with h | h
      · rw [dedup_pair_le e1 e2 h hov', if_pos hconf]
      · by_cases h' : e1.start_pos ≤ e2.start_pos
        · rw [dedup_pair_le e1 e2 h' hov', if_pos hconf]
        · rw [dedup_pair_gt e1 e2 h' hov, if_neg (not_lt_of_lt hconf)]
    · by_cases h' : e2.start_pos ≤ e1.start_pos
      · rw [dedup_pair_le e2 e1 h' hov, if_neg (not_lt_of_lt hconf)]
      · rw [dedup_pair_gt e2 e1 h' hov', if_pos hconf]
  · intro hconf hle
    have hnlt : ¬ e1.confidence < e2.confidence := by rw [hconf]; exact lt_irrefl _
    constructor
    · rw [dedup_pair_le e1 e2 hle hov', if_neg hnlt]
    · intro hlt
      have h' : ¬ e2.start_pos ≤ e1.start_pos := by omega
      rw [dedup_pair_gt e2 e1 h' hov']
      rw [if_neg hnlt]

/-- C3 witness: confidences 0.90 and 0.95 in both orders, plus an
equal-confidence pair. -/
theorem reconcile_confidence_tiebreak_witness :
    (deduplicate_entities
        [⟨['a'], ['T'], 0, 5, 9/10, ['R']⟩, ⟨['b'], ['T'], 3, 8, 19/20, ['R']⟩]
      = [⟨['b'], ['T'], 3, 8, 19/20, ['R']⟩] ∧
     deduplicate_entities
        [⟨['b'], ['T'], 3, 8, 19/20, ['R']⟩, ⟨['a'], ['T'], 0, 5, 9/10, ['R']⟩]
      = [⟨['b'], ['T'], 3, 8, 19/20, ['R']⟩]) ∧
    (deduplicate_entities
        [⟨['c'], ['T'], 0, 5, 1/2, ['R']⟩, ⟨['d'], ['T'], 3, 8, 1/2, ['R']⟩]
      = [⟨['c'], ['T'], 0, 5, 1/2, ['R']⟩] ∧
     deduplicate_entities
        [⟨['d'], ['T'], 3, 8, 1/2, ['R']⟩, ⟨['c'], ['T'], 0, 5, 1/2, ['R']⟩]
      = [⟨['c'], ['T'], 0, 5, 1/2, ['R']⟩]) := by
  constructor
  · exact (reconcile_confidence_tiebreak _ _ (by decide)).1 (by norm_num)
  · have h := (reconcile_confidence_tiebreak
      (⟨['c'], ['T'], 0, 5, 1/2, ['R']⟩ : PIIEntity)
      (⟨['d'], ['T'], 3, 8, 1/2, ['R']⟩ : PIIEntity) (by decide)).2 rfl (by norm_num)
    exact ⟨h.1, h.2 (by norm_num)⟩

/- ### Partial vs Mask fallback (C5) -/

/-- C5 counterexample: for the five-character snippet `ABCDE` of a
non-special type, `PartialStrategy` yields `A***E` while `MaskStrategy`
yields `AB**E`. -/
theorem fallback_differs_from_mask :
    PartialStrategy.redact "ABCDE".toList "OTHER".toList
      ≠ MaskStrategy.redact "ABCDE".toList "OTHER".toList ∧
    PartialStrategy.redact "ABCDE".toList "OTHER".toList = "A***E".toList ∧
    MaskStrategy.redact "ABCDE".toList "OTHER".toList = "AB**E".toList := by
  refine ⟨by decide, by decide, by decide⟩

/-- C5 amended: for entity types other than EMAIL, PHONE and CREDIT_CARD,
`PartialStrategy.redact` falls back to `_default_mask` (first and last
character visible), which agrees with the Mask tiered algorithm whenever the
trimmed snippet has length at most 4 (for longer snippets the two can
differ, as the counterexample shows, though they need not on every input). -/
theorem fallback_matches_mask_upto4 (s ty : Str)
    (h1 : ty ≠ "EMAIL".toList) (h2 : ty ≠ "PHONE".toList)
    (h3 : ty ≠ "CREDIT_CARD".toList) (hlen : (pyStrip s).length ≤ 4) :
    PartialStrategy.redact s ty = MaskStrategy.redact s ty := by
  simp only [PartialStrategy.redact, MaskStrategy.redact, PartialStrategy.default_mask,
    if_neg h1, if_neg h2, if_neg h3]
  by_cases hl : (pyStrip s).length ≤ 2
  · simp [hl]
  · simp [hl, hlen]

/-- C5 amended witness at a length-4 snippet. -/
theorem fallback_matches_mask_upto4_witness :
    PartialStrategy.redact "ABCD".toList "SSN".toList
      = MaskStrategy.redact "ABCD".toList "SSN".toList :=
  fallback_matches_mask_upto4 _ _ (by decide) (by decide) (by decide) (by decide)

/- ### Hash strategy cache (C8) -/

theorem lookup_append_of_none {k : Str} :
    ∀ {l1 l2 : List (Str × Str)}, l1.lookup k = none →
      (l1 ++ l2).lookup k = l2.lookup k := by
  intro l1 l2
  induction l1 with
  | nil => intro _; rfl
  | cons p ps ih =>
    intro h
    simp only [List.lookup] at h ⊢
    cases hk : (k == p.1)
    · simp only [hk] at h ⊢
      exact ih h
    · simp [hk] at h

/-- C8: within one `HashStrategy` instance, redacting the same exact snippet
a second time returns the identical replacement, whatever entity type the
second call passes; and a first (uncached) call returns
`[` + TYPE + `_` + first 8 digest hex characters + `]`. -/
theorem hash_strategy_cache_consistent (md5hex : Str → Str) (s : HashStrategy)
    (t ty1 ty2 : Str) :
    ((HashStrategy.redact md5hex
        (HashStrategy.redact md5hex s t ty1).2 t ty2).1
      = (HashStrategy.redact md5hex s t ty1).1) ∧
    (s.hash_cache.lookup t = none →
      (HashStrategy.redact md5hex s t ty1).1
        = "[".toList ++ ty1 ++ "_".toList ++ (md5hex t).take 8 ++ "]".toList) := by
  constructor
  · cases h : s.hash_cache.lookup t with
    | some v =>
      simp [HashStrategy.redact, h]
    | none =>
      simp only [HashStrategy.redact, h]
      rw [lookup_append_of_none h]
      simp [List.lookup]
  · intro h
    simp [HashStrategy.redact, h]

/-- C8 witness with a concrete digest function and an empty cache. -/
theorem hash_strategy_cache_consistent_witness :
    ((HashStrategy.redact (fun _ => "0123456789abcdef".toList)
        ((HashStrategy.redact (fun _ => "0123456789abcdef".toList) ⟨[]⟩
            "john".toList "EMAIL".toList).2)
        "john".toList "PHONE".toList).1
      = (HashStrategy.redact (fun _ => "0123456789abcdef".toList) ⟨[]⟩
          "john".toList "EMAIL".toList).1) ∧
    ((HashStrategy.redact (fun _ => "0123456789abcdef".toList) ⟨[]⟩
        "john".toList "EMAIL".toList).1
      = "[".toList ++ "EMAIL".toList ++ "_".toList
          ++ ("0123456789abcdef".toList).take 8 ++ "]".toList) := by
  have h := hash_strategy_cache_consistent (fun _ => "0123456789abcdef".toList) ⟨[]⟩
    "john".toList "EMAIL".toList "PHONE".toList
  exact ⟨h.1, h.2 rfl⟩

/- ### Capture groups in the pattern detector (C4) -/

/-- A Python `re.Match`: the whole-match text and span (`group(0)`), and the
list of captured groups (`groups()`), each with its text and span. -/
structure RegexMatch where
  group0_text : Str
  group0_start : Nat
  group0_end : Nat
  groups : List (Str × Nat × Nat)
deriving DecidableEq

/-- `src/detection/regex_detector.py` — `RegexDetector._create_entity_from_match`:
the captured group's span/text is used only when the entity type is NAME and
the match has groups; every other match uses the whole-match span/text. -/
def RegexDetector.create_entity_from_match (confidence_score : ℚ)
    (m : RegexMatch) (entity_type : Str) : PIIEntity :=
  match m.groups with
  | g :: _ =>
    if entity_type = "NAME".toList then
      ⟨g.1, entity_type, g.2.1, g.2.2, confidence_score, "REGEX".toList⟩
    else
      ⟨m.group0_text, entity_type, m.group0_start, m.group0_end,
        confidence_score, "REGEX".toList⟩
  | [] =>
    ⟨m.group0_text, entity_type, m.group0_start, m.group0_end,
      confidence_score, "REGEX".toList⟩

/-- C4 counterexample: an ADDRESS street-pattern match on `10 Test Lane`
whose capture group is the suffix `Lane` at span [8,12).  The emitted entity
carries the whole match's span and text, not the group's. -/
theorem address_group_ignored :
    (RegexDetector.create_entity_from_match (4/5)
        ⟨"10 Test Lane".toList, 0, 12, [("Lane".toList, 8, 12)]⟩
        "ADDRESS".toList).start_pos = 0 ∧
    (RegexDetector.create_entity_from_match (4/5)
        ⟨"10 Test Lane".toList, 0, 12, [("Lane".toList, 8, 12)]⟩
        "ADDRESS".toList).end_pos = 12 ∧
    (RegexDetector.create_entity_from_match (4/5)
        ⟨"10 Test Lane".toList, 0, 12, [("Lane".toList, 8, 12)]⟩
        "ADDRESS".toList).text = "10 Test Lane".toList ∧
    ¬ ((RegexDetector.create_entity_from_match (4/5)
        ⟨"10 Test Lane".toList, 0, 12, [("Lane".toList, 8, 12)]⟩
        "ADDRESS".toList).start_pos = 8 ∧
       (RegexDetector.create_entity_from_match (4/5)
        ⟨"10 Test Lane".toList, 0, 12, [("Lane".toList, 8, 12)]⟩
        "ADDRESS".toList).text = "Lane".toList) := by
  refine ⟨by decide, by decide, by decide, by decide⟩

/-- C4 amended: the emitted entity uses the capture group's span and text
exactly for NAME patterns with a group; every other entity type gets the
whole match's span and text even when the pattern captured a group. -/
theorem create_entity_group_only_for_name (confidence_score : ℚ)
    (m : RegexMatch) (entity_type : Str) :
    (entity_type ≠ "NAME".toList →
      RegexDetector.create_entity_from_match confidence_score m entity_type
        = ⟨m.group0_text, entity_type, m.group0_start, m.group0_end,
            confidence_score, "REGEX".toList⟩) ∧
    (∀ g gs, entity_type = "NAME".toList → m.groups = g :: gs →
      RegexDetector.create_entity_from_match confidence_score m entity_type
        = ⟨g.1, entity_type, g.2.1, g.2.2, confidence_score, "REGEX".toList⟩) := by
  constructor
  · intro hne
    unfold RegexDetector.create_entity_from_match
    cases m.groups with
    | nil => rfl
    | cons g gs =>
      show (if entity_type = "NAME".toList then _ else _) = _
      rw [if_neg hne]
  · intro g gs heq hg
    unfold RegexDetector.create_entity_from_match
    rw [hg]
    simp [heq]

/-- C4 amended witness: the ADDRESS match keeps the whole span, a NAME match
with a group keeps the group span. -/
theorem create_entity_group_only_for_name_witness :
    (RegexDetector.create_entity_from_match (4/5)
        ⟨"10 Test Lane".toList, 0, 12, [("Lane".toList, 8, 12)]⟩ "ADDRESS".toList
      = ⟨"10 Test Lane".toList, "ADDRESS".toList, 0, 12, 4/5, "REGEX".toList⟩) ∧
    (RegexDetector.create_entity_from_match (4/5)
        ⟨"my name is Jo".toList, 0, 13, [("Jo".toList, 11, 13)]⟩ "NAME".toList
      = ⟨"Jo".toList, "NAME".toList, 11, 13, 4/5, "REGEX".toList⟩) := by
  constructor
  · exact (create_entity_group_only_for_name (4/5)
      ⟨"10 Test Lane".toList, 0, 12, [("Lane".toList, 8, 12)]⟩ "ADDRESS".toList).1
      (by decide)
  · exact (create_entity_group_only_for_name (4/5)
      ⟨"my name is Jo".toList, 0, 13, [("Jo".toList, 11, 13)]⟩ "NAME".toList).2
      ("Jo".toList, 11, 13) [] rfl rfl

/- ### Empty and whitespace-only paths (C10) -/

/-- `src/detection/regex_detector.py` — `RegexDetector.detect`, guard
included; the pattern-scanning loop (Python's `re` module) is abstracted as
`scan`. -/
def RegexDetector.detect (scan : Str → List PIIEntity) (text : Str) :
    List PIIEntity :=
  if text = [] ∨ pyStrip text = [] then [] else scan text

theorem pyStrip_of_whitespace {text : Str}
    (h : ∀ c ∈ text, c.isWhitespace = true) : pyStrip text = [] := by
  have h1 : text.dropWhile Char.isWhitespace = [] :=
    List.dropWhile_eq_nil_iff.mpr h
  simp [pyStrip, h1]

/-- C10: detection on the empty string or whitespace-only text returns an
empty entity list, and rewriting any text whatsoever with an empty entity
list returns that text unchanged with the explicit no-redaction marker
(empty redaction list, count zero) — the rewriting half holds for every
`any_text`, with no whitespace restriction. -/
theorem empty_paths_detect_and_redact (scan : Str → List PIIEntity)
    (strategy : Str → Str → Str) (strategy_name now : String) (text any_text : Str)
    (hws : text = [] ∨ ∀ c ∈ text, c.isWhitespace = true) :
    RegexDetector.detect scan text = [] ∧
    TextRedactor.redact_text strategy strategy_name now any_text []
      = RedactionResult.create_empty any_text strategy_name now ∧
    (TextRedactor.redact_text strategy strategy_name now any_text []).redacted_text
      = any_text ∧
    (TextRedactor.redact_text strategy strategy_name now any_text []).entities_redacted
      = [] ∧
    (TextRedactor.redact_text strategy strategy_name now any_text []).redaction_count = 0 := by
  have hdetect : RegexDetector.detect scan text = [] := by
    rcases hws with rfl | hall
    · simp [RegexDetector.detect]
    · simp [RegexDetector.detect, pyStrip_of_whitespace hall]
  refine ⟨hdetect, rfl, rfl, rfl, rfl⟩

/-- C10 witness: detection on three spaces, rewriting on an ordinary
non-whitespace text. -/
theorem empty_paths_detect_and_redact_witness :
    RegexDetector.detect (fun _ => [⟨['x'], ['T'], 0, 1, 1, ['R']⟩]) "   ".toList = [] ∧
    TextRedactor.redact_text (fun _ _ => []) "remove" "t" "hello world".toList []
      = RedactionResult.create_empty "hello world".toList "remove" "t" ∧
    (TextRedactor.redact_text (fun _ _ => []) "remove" "t"
        "hello world".toList []).redacted_text = "hello world".toList ∧
    (TextRedactor.redact_text (fun _ _ => []) "remove" "t"
        "hello world".toList []).entities_redacted = [] ∧
    (TextRedactor.redact_text (fun _ _ => []) "remove" "t"
        "hello world".toList []).redaction_count = 0 :=
  empty_paths_detect_and_redact _ _ "remove" "t" "   ".toList "hello world".toList
    (Or.inr (by decide))

/- ### Payload model -/

/-- A Python JSON-ish field value: a string or some non-string value. -/
inductive PyValue where
  | vStr : Str → PyValue
  | vNum : Int → PyValue
deriving DecidableEq

/-- A Python dict payload, modelled as an ordered association list. -/
abbrev Payload := List (String × PyValue)

def Payload.lookupVal : Payload → String → Option PyValue
  | [], _ => none
  | kv :: rest, k => if kv.1 = k then some kv.2 else Payload.lookupVal rest k

/-- `redacted_payload[field_name] = value` for an existing key: rewrite the
entry in place, keeping dict order. -/
def Payload.setField (p : Payload) (k : String) (v : PyValue) : Payload :=
  p.map (fun kv => if kv.1 = k then (k, v) else kv)

/-- `payload[field_name]` restricted to string fields (the processors only
read fields that passed `_should_process_field`). -/
def Payload.getStr (p : Payload) (k : String) : Str :=
  match p.lookupVal k with
  | some (.vStr s) => s
  | _ => []

/-- `PayloadProcessor._should_process_field`: present, a string, and
non-empty after stripping. -/
def should_process_field (payload : Payload) (field_name : String) : Bool :=
  match payload.lookupVal field_name with
  | some (.vStr s) => decide (pyStrip s ≠ [])
  | _ => false

/-- The `_redaction_metadata` block added to a payload. -/
structure RedactionMetadata where
  redacted_at : String
  redaction_count : Nat
  strategy_used : String
  redactions : List (String × RedactionEntry)
deriving DecidableEq

/- ### `src/redaction/payload_processor.py` (C7) -/

/-- One iteration of the field loop in the redaction-module
`PayloadProcessor.process_payload`: guard with `_should_process_field`
against the original payload, redact the original field text, store the
redacted text, and tag each audit entry with the field name. -/
def redactionStep (strategy : Str → Str → Str) (strategy_name now : String)
    (payload : Payload) (acc : Payload × List (String × RedactionEntry))
    (fe : String × List PIIEntity) : Payload × List (String × RedactionEntry) :=
  if should_process_field payload fe.1 then
    let result := TextRedactor.redact_text strategy strategy_name now
      (payload.getStr fe.1) fe.2
    (acc.1.setField fe.1 (.vStr result.redacted_text),
     acc.2 ++ result.entities_redacted.map (fun r => (fe.1, r)))
  else acc

/-- `src/redaction/payload_processor.py` — `PayloadProcessor.process_payload`.
The returned pair is the redacted payload's fields together with the
optional `_redaction_metadata` block. -/
def RedactionPayloadProcessor.process_payload (strategy : Str → Str → Str)
    (strategy_name now : String) (payload : Payload)
    (entities_by_field : List (String × List PIIEntity)) :
    Payload × Option RedactionMetadata :=
  let q := entities_by_field.foldl
    (redactionStep strategy strategy_name now payload) (payload, [])
  (q.1, if q.2 ≠ [] then some ⟨now, q.2.length, strategy_name, q.2⟩ else none)

/-- The flattened, field-tagged redaction entries contributed by each field
of `entities_by_field` (a pure function of the original payload). -/
def gatherRedactions (strategy : Str → Str → Str) (strategy_name now : String)
    (payload : Payload) :
    List (String × List PIIEntity) → List (String × RedactionEntry)
  | [] => []
  | fe :: rest =>
    (if should_process_field payload fe.1 then
      (TextRedactor.redact_text strategy strategy_name now
        (payload.getStr fe.1) fe.2).entities_redacted.map (fun r => (fe.1, r))
     else []) ++ gatherRedactions strategy strategy_name now payload rest

theorem foldl_redactionStep_snd (strategy : Str → Str → Str)
    (strategy_name now : String) (payload : Payload) :
    ∀ (ebf : List (String × List PIIEntity))
      (acc : Payload × List (String × RedactionEntry)),
      (ebf.foldl (redactionStep strategy strategy_name now payload) acc).2
        = acc.2 ++ gatherRedactions strategy strategy_name now payload ebf := by
  intro ebf
  induction ebf with
  | nil => intro acc; simp [gatherRedactions]
  | cons fe rest ih =>
    intro acc
    simp only [List.foldl_cons, gatherRedactions]
    rw [ih]
    unfold redactionStep
    split
    · simp
    · simp

theorem lookupVal_setField_ne {k k' : String} {v : PyValue} (h : k' ≠ k) :
    ∀ (p : Payload), (p.setField k' v).lookupVal k = p.lookupVal k := by
  intro p
  induction p with
  | nil => rfl
  | cons a rest ih =>
    obtain ⟨ak, av⟩ := a
    simp only [Payload.setField, List.map_cons]
    by_cases ha : ak = k'
    · rw [show (if (ak, av).1 = k' then (k', v) else (ak, av)) = (k', v) from if_pos ha]
      simp only [Payload.lookupVal]
      rw [if_neg h, if_neg (by rw [ha]; exact h)]
      exact ih
    · rw [show (if (ak, av).1 = k' then (k', v) else (ak, av)) = (ak, av) from if_neg ha]
      simp only [Payload.lookupVal]
      by_cases hk : ak = k
      · rw [if_pos hk, if_pos hk]
      · rw [if_neg hk, if_neg hk]
        exact ih

theorem lookupVal_setField_self {k : String} {v : PyValue} :
    ∀ (p : Payload), (p.setField k v).lookupVal k = (p.lookupVal k).map (fun _ => v) := by
  intro p
  induction p with
  | nil => rfl
  | cons a rest ih =>
    obtain ⟨ak, av⟩ := a
    simp only [Payload.setField, List.map_cons]
    by_cases ha : ak = k
    · rw [show (if (ak, av).1 = k then (k, v) else (ak, av)) = (k, v) from if_pos ha]
      simp only [Payload.lookupVal]
      rw [if_pos trivial, if_pos ha]
      rfl
    · rw [show (if (ak, av).1 = k then (k, v) else (ak, av)) = (ak, av) from if_neg ha]
      simp only [Payload.lookupVal]
      rw [if_neg ha, if_neg ha]
      exact ih

theorem foldl_applyEntity_entries_length (strategy : Str → Str → Str) :
    ∀ (l : List PIIEntity) (acc : Str × List RedactionEntry),
      ((l.foldl (applyEntity strategy) acc).2).length = acc.2.length + l.length := by
  intro l
  induction l with
  | nil => intro acc; simp
  | cons e l' ih =>
    intro acc
    simp only [List.foldl_cons]
    rw [ih]
    simp only [applyEntity, List.length_append, List.length_cons, List.length_nil]
    omega

theorem redact_text_entries_length (strategy : Str → Str → Str)
    (strategy_name now : String) (t : Str) (ents : List PIIEntity) :
    (TextRedactor.redact_text strategy strategy_name now t ents).entities_redacted.length
      = ents.length := by
  unfold TextRedactor.redact_text
  split
  · rename_i h
    subst h
    rfl
  · simp only
    rw [foldl_applyEntity_entries_length]
    simp only [List.length_nil, Nat.zero_add]
    exact (List.perm_insertionSort startGe ents).length_eq

theorem mem_gatherRedactions {strategy : Str → Str → Str}
    {strategy_name now : String} {payload : Payload} :
    ∀ {ebf : List (String × List PIIEntity)} {r : String × RedactionEntry},
      r ∈ gatherRedactions strategy strategy_name now payload ebf →
      ∃ ents, (r.1, ents) ∈ ebf ∧ should_process_field payload r.1 = true ∧
        r.2 ∈ (TextRedactor.redact_text strategy strategy_name now
          (payload.getStr r.1) ents).entities_redacted := by
  intro ebf
  induction ebf with
  | nil => intro r h; simp [gatherRedactions] at h
  | cons fe rest ih =>
    intro r h
    simp only [gatherRedactions] at h
    rcases List.mem_append.mp h with h1 | h2
    · by_cases hp : should_process_field payload fe.1
      · rw [if_pos hp] at h1
        rcases List.mem_map.mp h1 with ⟨x, hx, rfl⟩
        exact ⟨fe.2, by simpa using List.mem_cons_self fe rest, hp, hx⟩
      · rw [if_neg hp] at h1
        simp at h1
    · rcases ih h2 with ⟨ents, hmem, hproc, hent⟩
      exact ⟨ents, List.mem_cons_of_mem _ hmem, hproc, hent⟩

theorem gatherRedactions_eq_nil_iff (strategy : Str → Str → Str)
    (strategy_name now : String) (payload : Payload) :
    ∀ (ebf : List (String × List PIIEntity)),
      gatherRedactions strategy strategy_name now payload ebf = [] ↔
        ∀ fe ∈ ebf, should_process_field payload fe.1 = true → fe.2 = [] := by
  intro ebf
  induction ebf with
  | nil => simp [gatherRedactions]
  | cons fe rest ih =>
    simp only [gatherRedactions, List.append_eq_nil, ih, List.mem_cons]
    constructor
    · rintro ⟨h1, h2⟩ g hg hp
      rcases hg with rfl | hg
      · rw [if_pos hp] at h1
        have hlen := redact_text_entries_length strategy strategy_name now
          (payload.getStr g.1) g.2
        rw [List.map_eq_nil] at h1
        rw [h1] at hlen
        simpa using (List.length_eq_zero.mp hlen.symm)
      · exact h2 g hg hp
    · intro h
      refine ⟨?_, fun g hg hp => h g (Or.inr hg) hp⟩
      by_cases hp : should_process_field payload fe.1
      · rw [if_pos hp]
        have hfe := h fe (Or.inl rfl) hp
        rw [hfe]
        rfl
      · rw [if_neg hp]

theorem foldl_redactionStep_fst (strategy : Str → Str → Str)
    (strategy_name now : String) (payload : Payload) (k : String) :
    ∀ (ebf : List (String × List PIIEntity))
      (acc : Payload × List (String × RedactionEntry)),
      (¬ ∃ ents, (k, ents) ∈ ebf ∧ should_process_field payload k = true ∧ ents ≠ []) →
      acc.1.lookupVal k = payload.lookupVal k →
      ((ebf.foldl (redactionStep strategy strategy_name now payload) acc).1).lookupVal k
        = payload.lookupVal k := by
  intro ebf
  induction ebf with
  | nil => intro acc _ hacc; exact hacc
  | cons fe rest ih =>
    intro acc hne hacc
    simp only [List.foldl_cons]
    apply ih
    · rintro ⟨ents, hmem, hp, hn⟩
      exact hne ⟨ents, List.mem_cons_of_mem _ hmem, hp, hn⟩
    · unfold redactionStep
      split
      · rename_i hp
        by_cases hfk : fe.1 = k
        · have hents : fe.2 = [] := by
            by_contra hn
            refine hne ⟨fe.2, ?_, ?_, hn⟩
            · rw [hfk.symm]
              simpa using List.mem_cons_self fe rest
            · rw [← hfk]
              exact hp
          rw [hents]
          have hred : TextRedactor.redact_text strategy strategy_name now
              (payload.getStr fe.1) [] = RedactionResult.create_empty
                (payload.getStr fe.1) strategy_name now := rfl
          simp only [hred]
          rw [show (RedactionResult.create_empty (payload.getStr fe.1)
            strategy_name now).redacted_text = payload.getStr fe.1 from rfl]
          rw [hfk]
          rw [lookupVal_setField_self, hacc]
          cases hv : payload.lookupVal k with
          | none =>
            rw [← hfk] at hv
            simp [should_process_field, hv] at hp
          | some v =>
            cases v with
            | vStr s =>
              have : payload.getStr k = s := by
                simp [Payload.getStr, hv]
              rw [← hfk, hfk, this]
              simp
            | vNum n =>
              rw [← hfk] at hv
              simp [should_process_field, hv] at hp
        · rw [lookupVal_setField_ne hfk]
          exact hacc
      · exact hacc

/-- C7: the processed record carries the aggregated metadata block exactly
when at least one redaction occurred; every entry of the block carries its
originating field name (and comes from that field's redaction result); and
every field in which no redaction occurred — including skipped absent,
non-string or blank fields — keeps its original value. -/
theorem payload_metadata_iff_redactions (strategy : Str → Str → Str)
    (strategy_name now : String) (payload : Payload)
    (entities_by_field : List (String × List PIIEntity)) :
    ((RedactionPayloadProcessor.process_payload strategy strategy_name now payload
        entities_by_field).2.isSome ↔
      ∃ fe ∈ entities_by_field, should_process_field payload fe.1 = true ∧ fe.2 ≠ []) ∧
    (∀ m, (RedactionPayloadProcessor.process_payload strategy strategy_name now payload
        entities_by_field).2 = some m →
      m.redaction_count = m.redactions.length ∧
      ∀ r ∈ m.redactions, ∃ ents, (r.1, ents) ∈ entities_by_field ∧
        should_process_field payload r.1 = true ∧
        r.2 ∈ (TextRedactor.redact_text strategy strategy_name now
          (payload.getStr r.1) ents).entities_redacted) ∧
    (∀ k, (¬ ∃ ents, (k, ents) ∈ entities_by_field ∧
        should_process_field payload k = true ∧ ents ≠ []) →
      ((RedactionPayloadProcessor.process_payload strategy strategy_name now payload
        entities_by_field).1).lookupVal k = payload.lookupVal k) := by
  have hq2 : (entities_by_field.foldl
      (redactionStep strategy strategy_name now payload) (payload, [])).2
      = gatherRedactions strategy strategy_name now payload entities_by_field := by
    rw [foldl_redactionStep_snd]
    rfl
  refine ⟨?_, ?_, ?_⟩
  · simp only [RedactionPayloadProcessor.process_payload, hq2]
    split
    · rename_i h
      simp only [Option.isSome_some, true_iff]
      by_contra hno
      push_neg at hno
      exact h ((gatherRedactions_eq_nil_iff strategy strategy_name now payload
        entities_by_field).mpr hno)
    · rename_i h
      simp only [Option.isSome_none, Bool.false_eq_true, false_iff]
      push_neg at h
      rintro ⟨fe, hfe, hp, hn⟩
      exact hn ((gatherRedactions_eq_nil_iff strategy strategy_name now payload
        entities_by_field).mp h fe hfe hp)
  · intro m hm
    simp only [RedactionPayloadProcessor.process_payload, hq2] at hm
    split at hm
    · rcases Option.some_inj.mp hm with rfl
      exact ⟨rfl, fun r hr => mem_gatherRedactions hr⟩
    · exact absurd hm (by simp)
  · intro k hk
    simp only [RedactionPayloadProcessor.process_payload]
    exact foldl_redactionStep_fst strategy strategy_name now payload k
      entities_by_field (payload, []) hk rfl

/- ### `src/processing/payload_processor.py` (C6) -/

/-- The per-payload statistics dict built by the processing-module
`PayloadProcessor.process_payload`. -/
structure ProcessingStats where
  payload_id : PyValue
  pii_detected : Nat
  fields_with_pii : List String
  status : String
  error : Option String
deriving DecidableEq

/-- `self.pii_fields` of both payload processors. -/
def pii_fields : List String :=
  ["sentence", "description", "notes", "comments", "transcript"]

/-- `payload.get('verbatim_id', 'unknown')`. -/
def payloadId (payload : Payload) : PyValue :=
  (payload.lookupVal "verbatim_id").getD (.vStr "unknown".toList)

/-- Step 1 of `process_payload`: run the detector over every processable
field in `pii_fields` order, collecting `entities_by_field` (only non-empty
results) and the total entity count.  The detector call is fallible; the
first raised exception aborts the whole loop. -/
def detect_fields (detect : Str → Except String (List PIIEntity))
    (payload : Payload) :
    List String → Except String (List (String × List PIIEntity) × Nat)
  | [] => .ok ([], 0)
  | f :: fs =>
    if should_process_field payload f then
      match detect (payload.getStr f) with
      | .error e => .error e
      | .ok entities =>
        match detect_fields detect payload fs with
        | .error e => .error e
        | .ok (rest, n) =>
          if entities ≠ [] then .ok ((f, entities) :: rest, entities.length + n)
          else .ok (rest, n)
    else detect_fields detect payload fs

/-- One iteration of `_redact_payload_fields` (this loop has no
`_should_process_field` guard; `entities_by_field` was built from processed
fields only, and field text is read from the original payload). -/
def redactFieldsStep (strategy : Str → Str → Str) (strategy_name now : String)
    (payload : Payload) (acc : Payload × List (String × RedactionEntry))
    (fe : String × List PIIEntity) : Payload × List (String × RedactionEntry) :=
  let result := TextRedactor.redact_text strategy strategy_name now
    (payload.getStr fe.1) fe.2
  (acc.1.setField fe.1 (.vStr result.redacted_text),
   acc.2 ++ result.entities_redacted.map (fun r => (fe.1, r)))

/-- `PayloadProcessor._redact_payload_fields`. -/
def redact_payload_fields (strategy : Str → Str → Str)
    (strategy_name now : String) (payload : Payload)
    (entities_by_field : List (String × List PIIEntity)) :
    Payload × Option RedactionMetadata :=
  let q := entities_by_field.foldl
    (redactFieldsStep strategy strategy_name now payload) (payload, [])
  (q.1, if q.2 ≠ [] then some ⟨now, q.2.length, strategy_name, q.2⟩ else none)

/-- `src/processing/payload_processor.py` — `PayloadProcessor.process_payload`:
the whole detection-and-redaction body runs inside one `try`; any exception
is caught at record level, returning the original payload with `'failed'`
stats. -/
def ProcessingPayloadProcessor.process_payload
    (detect : Str → Except String (List PIIEntity))
    (strategy : Str → Str → Str) (strategy_name now : String)
    (payload : Payload) :
    (Payload × Option RedactionMetadata) × ProcessingStats :=
  match detect_fields detect payload pii_fields with
  | .ok (entities_by_field, total) =>
    ((if entities_by_field ≠ [] then
        redact_payload_fields strategy strategy_name now payload entities_by_field
      else (payload, none)),
     ⟨payloadId payload, total, entities_by_field.map Prod.fst, "success", none⟩)
  | .error e =>
    ((payload, none), ⟨payloadId payload, 0, [], "failed", some e⟩)

/-- C6 counterexample: a record whose `sentence` field makes the detector
raise while its `description` field holds detectable PII.  The whole record
comes back untouched with record-level `'failed'` status — `description` is
not processed, although redacting it normally would change it. -/
theorem field_exception_not_isolated :
    (ProcessingPayloadProcessor.process_payload
        (fun s => if s = "a@b.com".toList then .error "boom"
          else .ok [⟨"x@y.com".toList, "EMAIL".toList, 0, 7, 4/5, "REGEX".toList⟩])
        (fun _ _ => "[REDACTED_EMAIL]".toList) "placeholder" "t"
        [("sentence", .vStr "a@b.com".toList),
         ("description", .vStr "x@y.com".toList)]).1.1
      = [("sentence", .vStr "a@b.com".toList),
         ("description", .vStr "x@y.com".toList)] ∧
    (ProcessingPayloadProcessor.process_payload
        (fun s => if s = "a@b.com".toList then .error "boom"
          else .ok [⟨"x@y.com".toList, "EMAIL".toList, 0, 7, 4/5, "REGEX".toList⟩])
        (fun _ _ => "[REDACTED_EMAIL]".toList) "placeholder" "t"
        [("sentence", .vStr "a@b.com".toList),
         ("description", .vStr "x@y.com".toList)]).2.status = "failed" ∧
    (TextRedactor.redact_text (fun _ _ => "[REDACTED_EMAIL]".toList) "placeholder" "t"
        "x@y.com".toList
        [⟨"x@y.com".toList, "EMAIL".toList, 0, 7, 4/5, "REGEX".toList⟩]).redacted_text
      ≠ "x@y.com".toList := by
  refine ⟨by decide, by decide, by decide⟩

theorem detect_fields_error_at (detect : Str → Except String (List PIIEntity))
    (payload : Payload) (e : String) :
    ∀ (fs1 : List String) (f : String) (fs2 : List String),
      (∀ f' ∈ fs1, should_process_field payload f' = true →
        ∃ ents, detect (payload.getStr f') = .ok ents) →
      should_process_field payload f = true →
      detect (payload.getStr f) = .error e →
      detect_fields detect payload (fs1 ++ f :: fs2) = .error e := by
  intro fs1
  induction fs1 with
  | nil =>
    intro f fs2 _ hp herr
    simp only [List.nil_append, detect_fields, if_pos hp, herr]
  | cons f' fs1' ih =>
    intro f fs2 hok hp herr
    simp only [List.cons_append, detect_fields]
    by_cases hp' : should_process_field payload f'
    · rw [if_pos hp']
      rcases hok f' (List.mem_cons_self _ _) hp' with ⟨ents, hents⟩
      rw [hents]
      dsimp only
      simp only [List.append_eq]
      rw [ih f fs2 (fun g hg hpg => hok g (List.mem_cons_of_mem _ hg) hpg) hp herr]
    · rw [if_neg hp']
      exact ih f fs2 (fun g hg hpg => hok g (List.mem_cons_of_mem _ hg) hpg) hp herr

/-- C6 amended: an exception raised while processing a field is caught at
*record* granularity, not field granularity: when the detector raises on a
processable field (all processable fields before it having succeeded), the
whole record is returned unredacted, later fields are never processed, and
the stats carry status `failed` with zero entities. -/
theorem processing_exception_record_level
    (detect : Str → Except String (List PIIEntity))
    (strategy : Str → Str → Str) (strategy_name now : String)
    (payload : Payload) (fs1 : List String) (f : String) (fs2 : List String)
    (e : String)
    (hsplit : pii_fields = fs1 ++ f :: fs2)
    (hok : ∀ f' ∈ fs1, should_process_field payload f' = true →
      ∃ ents, detect (payload.getStr f') = .ok ents)
    (hp : should_process_field payload f = true)
    (herr : detect (payload.getStr f) = .error e) :
    ProcessingPayloadProcessor.process_payload detect strategy strategy_name now payload
      = ((payload, none), ⟨payloadId payload, 0, [], "failed", some e⟩) := by
  unfold ProcessingPayloadProcessor.process_payload
  rw [hsplit, detect_fields_error_at detect payload e fs1 f fs2 hok hp herr]

/-- C6 amended witness on the concrete two-field record. -/
theorem processing_exception_record_level_witness :
    ProcessingPayloadProcessor.process_payload
        (fun s => if s = "a@b.com".toList then .error "boom"
          else .ok [⟨"x@y.com".toList, "EMAIL".toList, 0, 7, 4/5, "REGEX".toList⟩])
        (fun _ _ => "[REDACTED_EMAIL]".toList) "placeholder" "t"
        [("sentence", .vStr "a@b.com".toList),
         ("description", .vStr "x@y.com".toList)]
      = (([("sentence", .vStr "a@b.com".toList),
           ("description", .vStr "x@y.com".toList)], none),
         ⟨payloadId [("sentence", .vStr "a@b.com".toList),
                     ("description", .vStr "x@y.com".toList)],
          0, [], "failed", some "boom"⟩) :=
  processing_exception_record_level _ _ "placeholder" "t" _
    [] "sentence" ["description", "notes", "comments", "transcript"] "boom"
    rfl (by simp) (by decide) (by rfl)

/-- C1 witness at a concrete overlapping input. -/
theorem reconcile_sorted_disjoint_from_input_witness :
    ((deduplicate_entities
        [⟨['a'], ['T'], 0, 5, 1/2, ['R']⟩, ⟨['b'], ['T'], 3, 8, 9/10, ['R']⟩]).Pairwise
          startLe ∧
      (deduplicate_entities
        [⟨['a'], ['T'], 0, 5, 1/2, ['R']⟩, ⟨['b'], ['T'], 3, 8, 9/10, ['R']⟩]).Pairwise
          (fun a b => entities_overlap a b = false) ∧
      ∀ e ∈ deduplicate_entities
        [⟨['a'], ['T'], 0, 5, 1/2, ['R']⟩, ⟨['b'], ['T'], 3, 8, 9/10, ['R']⟩],
        e ∈ [⟨['a'], ['T'], 0, 5, 1/2, ['R']⟩, ⟨['b'], ['T'], 3, 8, 9/10, ['R']⟩]) ∧
    ((merge_entity_lists
        [[⟨['a'], ['T'], 0, 5, 1/2, ['R']⟩], [⟨['b'], ['T'], 3, 8, 9/10, ['R']⟩]]).Pairwise
          startLe ∧
      (merge_entity_lists
        [[⟨['a'], ['T'], 0, 5, 1/2, ['R']⟩], [⟨['b'], ['T'], 3, 8, 9/10, ['R']⟩]]).Pairwise
          (fun a b => entities_overlap a b = false) ∧
      ∀ e ∈ merge_entity_lists
        [[⟨['a'], ['T'], 0, 5, 1/2, ['R']⟩], [⟨['b'], ['T'], 3, 8, 9/10, ['R']⟩]],
        ∃ ll ∈ [[⟨['a'], ['T'], 0, 5, 1/2, ['R']⟩], [⟨['b'], ['T'], 3, 8, 9/10, ['R']⟩]],
          e ∈ ll) :=
  reconcile_sorted_disjoint_from_input
    [⟨['a'], ['T'], 0, 5, 1/2, ['R']⟩, ⟨['b'], ['T'], 3, 8, 9/10, ['R']⟩]
    [[⟨['a'], ['T'], 0, 5, 1/2, ['R']⟩], [⟨['b'], ['T'], 3, 8, 9/10, ['R']⟩]]

/-- C7 witness at a concrete one-field payload. -/
theorem payload_metadata_iff_redactions_witness :
    ((RedactionPayloadProcessor.process_payload (fun _ _ => ['#']) "mask" "t"
        [("sentence", .vStr "hi all".toList)]
        [("sentence", [⟨"hi".toList, "OTHER".toList, 0, 2, 1/2, ['R']⟩])]).2.isSome ↔
      ∃ fe ∈ [("sentence", [(⟨"hi".toList, "OTHER".toList, 0, 2, 1/2, ['R']⟩ : PIIEntity)])],
        should_process_field [("sentence", .vStr "hi all".toList)] fe.1 = true ∧ fe.2 ≠ []) ∧
    (∀ m, (RedactionPayloadProcessor.process_payload (fun _ _ => ['#']) "mask" "t"
        [("sentence", .vStr "hi all".toList)]
        [("sentence", [⟨"hi".toList, "OTHER".toList, 0, 2, 1/2, ['R']⟩])]).2 = some m →
      m.redaction_count = m.redactions.length ∧
      ∀ r ∈ m.redactions,
        ∃ ents, (r.1, ents) ∈
            [("sentence", [(⟨"hi".toList, "OTHER".toList, 0, 2, 1/2, ['R']⟩ : PIIEntity)])] ∧
          should_process_field [("sentence", .vStr "hi all".toList)] r.1 = true ∧
          r.2 ∈ (TextRedactor.redact_text (fun _ _ => ['#']) "mask" "t"
            (Payload.getStr [("sentence", .vStr "hi all".toList)] r.1)
            ents).entities_redacted) ∧
    (∀ k, (¬ ∃ ents, (k, ents) ∈
          [("sentence", [(⟨"hi".toList, "OTHER".toList, 0, 2, 1/2, ['R']⟩ : PIIEntity)])] ∧
        should_process_field [("sentence", .vStr "hi all".toList)] k = true ∧ ents ≠ []) →
      ((RedactionPayloadProcessor.process_payload (fun _ _ => ['#']) "mask" "t"
        [("sentence", .vStr "hi all".toList)]
        [("sentence", [⟨"hi".toList, "OTHER".toList, 0, 2, 1/2, ['R']⟩])]).1).lookupVal k
        = Payload.lookupVal [("sentence", .vStr "hi all".toList)] k) :=
  payload_metadata_iff_redactions (fun _ _ => ['#']) "mask" "t"
    [("sentence", .vStr "hi all".toList)]
    [("sentence", [⟨"hi".toList, "OTHER".toList, 0, 2, 1/2, ['R']⟩])]
